import Mathlib

/-!
Verification of the b2luigi core output-registry slice
(src/b2luigi/core/utils.py): parameter combinator, constraint
normalization, output registry builder, filter engine and path deriver,
shallowly embedded in Lean 4.
-/

set_option autoImplicit false

/-- A runtime Python value as it occurs in constraint candidate lists and
expanded assignments.  Serialized task parameters are strings; constraint
candidates may be strings or ints.  Python equality across these types is
always `False`, which `pyEq` reproduces. -/
inductive PyVal where
  | str (s : String)
  | int (n : Int)
deriving DecidableEq

/-- Python `==` on the modelled values: equal only within the same type. -/
def pyEq : PyVal → PyVal → Bool
  | PyVal.str a, PyVal.str b => a == b
  | PyVal.int a, PyVal.int b => a == b
  | _, _ => false

/-- A caller-supplied constraint value before normalization: `None`, a
string (iterable in Python!), an int (not iterable), or a list. -/
inductive ConstrVal where
  | none
  | str (s : String)
  | int (n : Int)
  | list (l : List PyVal)
deriving DecidableEq

/-- The body of the loop in `fill_kwargs_with_lists` (utils.py lines 56-61):
`None` becomes `[]`; a value that is not `collections.Iterable` (an int) is
wrapped as a one-element list; iterables (lists, and also strings, which
Python iterates character by character) are kept as they are. -/
def fill_value : ConstrVal → List PyVal
  | ConstrVal.none => []
  | ConstrVal.str s => s.data.map (fun c => PyVal.str c.toString)
  | ConstrVal.int n => [PyVal.int n]
  | ConstrVal.list l => l

/-- Embedding of `fill_kwargs_with_lists` (utils.py lines 42-63).  Keyword-argument dicts
have unique keys, so the accumulating loop is a `map` over the entries. -/
def fill_kwargs_with_lists (kwargs : List (String × ConstrVal)) :
    List (String × List PyVal) :=
  kwargs.map (fun kv => (kv.1, fill_value kv.2))

/-- Embedding of `itertools.product` over a list of candidate lists, in the order the
Python iterator yields tuples (leftmost factor varies slowest).  The
nullary product yields exactly one empty tuple, as `itertools.product()`
does. -/
def itertools_product {α : Type} : List (List α) → List (List α)
  | [] => [[]]
  | vs :: rest => vs.flatMap (fun v => (itertools_product rest).map (fun tail => v :: tail))

/-- Embedding of `product_dict` (utils.py lines 22-39): zip the keys with every tuple of
`itertools.product(*vals)`. -/
def product_dict {α : Type} (kwargs : List (String × List α)) :
    List (List (String × α)) :=
  (itertools_product (kwargs.map Prod.snd)).map
    (fun tup => (kwargs.map Prod.fst).zip tup)

/-- One record of the output registry (utils.py line 142):
`dict(parameters=task.get_serialized_parameters(), file_name=os.path.abspath(file_name))`. -/
structure OutputRecord where
  parameters : List (String × String)
  file_name : String
deriving DecidableEq

/-- The inner loop of `filter_from_params` (utils.py lines 160-164): the
record is rejected exactly when some constrained key is present in its
parameters with a different value (`key in parameters and parameters[key] != value`);
keys absent from the parameters are ignored. -/
def record_matches (output_dict : OutputRecord) (assignment : List (String × PyVal)) : Bool :=
  ! assignment.any (fun kv =>
      match List.lookup kv.1 output_dict.parameters with
      | some pv => ! pyEq (PyVal.str pv) kv.2
      | none => false)

/-- Embedding of `filter_from_params` (utils.py lines 148-171).  With no constraints the
input is returned unchanged (line 151-152).  Otherwise the code executes
`file_names.add(output_dict)` for every matching record: `output_dict` is a
plain dict and dicts are unhashable, so the first match raises `TypeError`
(modelled as `Except.error`).  When no record matches any expanded
assignment the set stays empty and `list(file_names)` is the empty list. -/
def filter_from_params (output_files : List OutputRecord)
    (kwargs : List (String × ConstrVal)) : Except String (List OutputRecord) :=
  let kwargs_list := fill_kwargs_with_lists kwargs
  if kwargs_list.isEmpty then Except.ok output_files
  else if (product_dict kwargs_list).any
            (fun a => output_files.any (fun r => record_matches r a))
  then Except.error "TypeError: unhashable type: dict"
  else Except.ok []

/-- The Cartesian-product expansion written directly from the spec's words
(one concrete assignment per product element, key order preserved), used
to compare `product_dict` against the spec. -/
def cartesian_assignments {α : Type} : List (String × List α) → List (List (String × α))
  | [] => [[]]
  | (k, vs) :: rest =>
      vs.flatMap (fun v => (cartesian_assignments rest).map (fun d => (k, v) :: d))

theorem length_bind_const {α β : Type} (l : List α) (f : α → List β) (n : Nat)
    (h : ∀ a ∈ l, (f a).length = n) : (l.flatMap f).length = l.length * n := by
  induction l with
  | nil => simp
  | cons a as ih =>
      simp only [List.flatMap_cons, List.length_append, List.length_cons,
        h a (List.mem_cons_self a as), ih (fun b hb => h b (List.mem_cons_of_mem a hb)),
        Nat.succ_mul]
      omega

theorem product_dict_eq_cartesian {α : Type} (kwargs : List (String × List α)) :
    product_dict kwargs = cartesian_assignments kwargs := by
  induction kwargs with
  | nil => rfl
  | cons kv rest ih =>
      obtain ⟨k, vs⟩ := kv
      simp only [product_dict, cartesian_assignments, itertools_product,
        List.map_cons, List.map_flatMap, List.map_map] at *
      refine List.flatMap_congr (fun v _ => ?_)
      rw [← ih]
      simp [Function.comp, List.zip_cons_cons]

theorem cartesian_assignments_length {α : Type} (kwargs : List (String × List α)) :
    (cartesian_assignments kwargs).length = (kwargs.map (fun kv => kv.2.length)).prod := by
  induction kwargs with
  | nil => rfl
  | cons kv rest ih =>
      obtain ⟨k, vs⟩ := kv
      simp only [cartesian_assignments, List.map_cons, List.prod_cons]
      rw [length_bind_const vs _ (cartesian_assignments rest).length
        (fun v _ => by simp), ih]

/-- One task parameter as seen through the external luigi collaborator:
`task.get_params()` yields `(key, parameter)` pairs, `parameter.significant`
flags significance, and `parameter.serialize(getattr(task, key))` produces
the stable string; `serialized_value` models that serialization result. -/
structure TaskParam where
  name : String
  significant : Bool
  serialized_value : String
deriving DecidableEq

/-- A task of the dependency tree: family name, ordered parameter list,
declared output-file mapping (logical key to file name, from
`get_output_file_names()`), and dependency edges (`deps()`).  An inductive
tree, matching the acyclicity precondition of the traversal. -/
inductive LuigiTask where
  | mk (family : String) (params : List TaskParam)
       (output_file_names : List (String × String)) (deps : List LuigiTask)

def LuigiTask.family : LuigiTask → String
  | LuigiTask.mk f _ _ _ => f

def LuigiTask.params : LuigiTask → List TaskParam
  | LuigiTask.mk _ p _ _ => p

def LuigiTask.output_file_names : LuigiTask → List (String × String)
  | LuigiTask.mk _ _ o _ => o

def LuigiTask.deps : LuigiTask → List LuigiTask
  | LuigiTask.mk _ _ _ d => d

mutual

/-- Embedding of `task_iterator` (utils.py lines 125-128): the task itself, then the
traversal of each dependency in declaration order (pre-order, no
deduplication). -/
def task_iterator : LuigiTask → List LuigiTask
  | LuigiTask.mk f p o ds => LuigiTask.mk f p o ds :: task_iterator_deps ds

/-- The `for dep in task.deps(): yield from task_iterator(dep)` loop. -/
def task_iterator_deps : List LuigiTask → List LuigiTask
  | [] => []
  | t :: ts => task_iterator t ++ task_iterator_deps ts

end

/-- Embedding of `get_serialized_parameters` (utils.py lines 189-202): the ordered
string-valued map of the significant parameters. -/
def get_serialized_parameters (task : LuigiTask) : List (String × String) :=
  ((LuigiTask.params task).filter (fun p => p.significant)).map
    (fun p => (p.name, p.serialized_value))

/-- Python `str.startswith("/")` of a path, i.e. its first character is the
separator. -/
def starts_with_sep (s : String) : Bool := s.data.head? == some '/'

/-- Python `str.endswith("/")` of a path, i.e. its last character is the
separator. -/
def ends_with_sep (s : String) : Bool := s.data.getLast? == some '/'

/-- Embedding of `posixpath.join(a, *ps)`: an absolute component resets the path, a
component after an empty or slash-terminated path is appended bare,
otherwise a separator is inserted. -/
def os_path_join (a : String) (ps : List String) : String :=
  ps.foldl (fun path b =>
    if starts_with_sep b then b
    else if path == "" || ends_with_sep path then path ++ b
    else path ++ "/" ++ b) a

/-- Python `"x/y".split("/")` on the character list (keeps empty groups). -/
def split_sep : List Char → List (List Char)
  | [] => [[]]
  | c :: cs =>
      let r := split_sep cs
      if c = '/' then [] :: r
      else match r with
        | [] => [[c]]
        | g :: gs => (c :: g) :: gs

/-- The component loop of `posixpath.normpath`: drop empty and `.`
components, let `..` cancel a previous real component. -/
def normpath_comps (initial_slashes : Nat) (comps : List (List Char)) : List (List Char) :=
  comps.foldl (fun new_comps comp =>
    if comp = [] ∨ comp = ['.'] then new_comps
    else if comp ≠ ['.', '.'] ∨ (initial_slashes = 0 ∧ new_comps = [])
          ∨ (new_comps ≠ [] ∧ new_comps.getLast? = some ['.', '.'])
    then new_comps ++ [comp]
    else if new_comps ≠ [] then new_comps.dropLast
    else new_comps) []

/-- Embedding of `posixpath.normpath`. -/
def os_path_normpath (path : String) : String :=
  if path = "" then "."
  else
    let d := path.data
    let initial_slashes : Nat :=
      if d.head? = some '/' then
        if d.take 2 = ['/', '/'] ∧ d.take 3 ≠ ['/', '/', '/'] then 2 else 1
      else 0
    let new_comps := normpath_comps initial_slashes (split_sep d)
    let joined := List.replicate initial_slashes '/' ++ List.intercalate ['/'] new_comps
    if joined = [] then "." else String.mk joined

/-- Embedding of `posixpath.abspath` relative to the current working directory `cwd`
(the `os.getcwd()` collaborator, passed explicitly). -/
def os_path_abspath (cwd : String) (path : String) : String :=
  os_path_normpath (if starts_with_sep path then path else os_path_join cwd [path])

/-- Embedding of `all_output_files[file_key].append(...)` on the insertion-ordered
`defaultdict(list)` (utils.py lines 135, 142): append under an existing
key, or create the key at the end. -/
def registry_append (reg : List (String × List OutputRecord)) (k : String)
    (r : OutputRecord) : List (String × List OutputRecord) :=
  match reg with
  | [] => [(k, [r])]
  | (k0, rs) :: rest =>
      if k0 = k then (k0, rs ++ [r]) :: rest
      else (k0, rs) :: registry_append rest k r

/-- The body of the task loop (utils.py lines 137-143): one record per
declared output, sharing the task's serialized parameters.  A task with an
empty output mapping is skipped by `continue`, which folds identically. -/
def add_task_outputs (cwd : String) (reg : List (String × List OutputRecord))
    (task : LuigiTask) : List (String × List OutputRecord) :=
  (LuigiTask.output_file_names task).foldl
    (fun reg kv =>
      registry_append reg kv.1
        ⟨get_serialized_parameters task, os_path_abspath cwd kv.2⟩) reg

/-- The full registry accumulated over `task_iterator(root_module)`. -/
def build_registry (cwd : String) (tasks : List LuigiTask) :
    List (String × List OutputRecord) :=
  tasks.foldl (add_task_outputs cwd) []

/-- Embedding of `defaultdict(list).__getitem__`: a missing key yields the empty list,
never a `KeyError`. -/
def defaultdict_get (reg : List (String × List OutputRecord)) (k : String) :
    List OutputRecord :=
  match List.lookup k reg with
  | some v => v
  | none => []

/-- The two possible results of `get_all_output_files_in_tree`: the whole
registry dict, or the entry list for one key. -/
inductive TreeQuery where
  | registry (entries : List (String × List OutputRecord))
  | records (entries : List OutputRecord)
deriving DecidableEq

/-- Embedding of `get_all_output_files_in_tree` (utils.py lines 131-145).  `if key:` is
Python truthiness, so both `None` and the empty string fall through to
building and returning the whole registry; a truthy key indexes the
freshly built `defaultdict`, whose missing-key behaviour is the empty
list. -/
def get_all_output_files_in_tree (cwd : String) (root_module : LuigiTask)
    (key : Option String) : TreeQuery :=
  match key with
  | some k =>
      if k = "" then TreeQuery.registry (build_registry cwd (task_iterator root_module))
      else TreeQuery.records (defaultdict_get (build_registry cwd (task_iterator root_module)) k)
  | none => TreeQuery.registry (build_registry cwd (task_iterator root_module))

/-- The settings collaborator: `get_setting(key, default)` over a
process-wide key-value store, modelled as an explicit association list. -/
def get_setting (settings : List (String × String)) (key dflt : String) : String :=
  match List.lookup key settings with
  | some v => v
  | none => dflt

/-- Embedding of `create_output_file_name` (utils.py lines 205-216).  `if not result_path:`
is truthiness, so both `None` and `""` fall back to the `result_path`
setting.  `create_folder` only triggers `os.makedirs(..., exist_ok=True)`,
an external idempotent filesystem effect that does not change the returned
path. -/
def create_output_file_name (settings : List (String × String)) (task : LuigiTask)
    (base_filename : String) (create_folder : Bool) (result_path : Option String) : String :=
  let serialized_parameters := get_serialized_parameters task
  let rp := match result_path with
    | some p => if p = "" then get_setting settings "result_path" "." else p
    | none => get_setting settings "result_path" "."
  let param_list := serialized_parameters.map (fun kv => kv.1 ++ "=" ++ kv.2)
  os_path_join rp (param_list ++ [base_filename])

instance {ε α : Type} [DecidableEq ε] [DecidableEq α] : DecidableEq (Except ε α)
  | Except.ok a, Except.ok b =>
      if h : a = b then Decidable.isTrue (by rw [h])
      else Decidable.isFalse (by intro he; cases he; exact h rfl)
  | Except.ok _, Except.error _ => Decidable.isFalse (by intro he; cases he)
  | Except.error _, Except.ok _ => Decidable.isFalse (by intro he; cases he)
  | Except.error e, Except.error f =>
      if h : e = f then Decidable.isTrue (by rw [h])
      else Decidable.isFalse (by intro he; cases he; exact h rfl)

def c1_dep1 : LuigiTask := LuigiTask.mk "LogTask" [⟨"run", true, "1"⟩] [("log", "log_1.txt")] []

def c1_dep2 : LuigiTask := LuigiTask.mk "LogTask" [⟨"run", true, "2"⟩] [("log", "log_2.txt")] []

def c1_root : LuigiTask := LuigiTask.mk "RootTask" [] [] [c1_dep1, c1_dep2]

def c1_rec1 : OutputRecord := ⟨[("run", "1")], "/cwd/log_1.txt"⟩

def c1_rec2 : OutputRecord := ⟨[("run", "2")], "/cwd/log_2.txt"⟩

/-- Claim C1: the registry for the two-dependency scenario is built as
described (entry "log" holds the run=1 and run=2 records in traversal
order), but filtering that entry with the constraint run=1 does not return
the matching record: the code adds the matching record dict to a set and
dicts are unhashable, so it raises a `TypeError`. -/
theorem c1_registry_filter_raises :
    get_all_output_files_in_tree "/cwd" c1_root (some "log")
      = TreeQuery.records [c1_rec1, c1_rec2]
    ∧ filter_from_params [c1_rec1, c1_rec2] [("run", ConstrVal.str "1")]
      = Except.error "TypeError: unhashable type: dict" := by decide

def c2_rec : OutputRecord := ⟨[("run", "1")], "/results/run=1/out.txt"⟩

/-- Claim C2: with a non-empty constraint mapping and a duplicated matching
record the filter does not return the duplicates in input order: it raises
a `TypeError` at the first `set.add` of an unhashable record dict.  When no
record matches, the only normal return is the empty list. -/
theorem c2_duplicate_records_raise :
    filter_from_params [c2_rec, c2_rec] [("run", ConstrVal.list [PyVal.str "1"])]
      = Except.error "TypeError: unhashable type: dict"
    ∧ filter_from_params [c2_rec, c2_rec] [("run", ConstrVal.list [PyVal.str "2"])]
      = Except.ok [] := by decide

def c4_rec : OutputRecord := ⟨[("x", "1")], "/results/x=1/out.txt"⟩

/-- Claim C4: the per-assignment match rule behaves as claimed (a key
absent from the record's parameters never disqualifies it, a present key
must agree), but a matching record is not included in the result: the
engine raises a `TypeError` on the first match instead. -/
theorem c4_absent_key_matches_but_raises :
    record_matches c4_rec [("z", PyVal.str "9")] = true
    ∧ record_matches c4_rec [("x", PyVal.str "2")] = false
    ∧ record_matches c4_rec [("x", PyVal.str "1")] = true
    ∧ filter_from_params [c4_rec] [("z", ConstrVal.list [PyVal.str "9"])]
      = Except.error "TypeError: unhashable type: dict" := by decide

/-- Claim C5: `product_dict` yields exactly the full Cartesian product of
the candidate lists, key order preserved, with cardinality the product of
the list lengths; in particular x mapped to 1,2 and y mapped to 3 expand
to exactly the two assignments. -/
theorem product_dict_is_cartesian_product :
    (∀ {α : Type} (kwargs : List (String × List α)),
        product_dict kwargs = cartesian_assignments kwargs
        ∧ (product_dict kwargs).length = (kwargs.map (fun kv => kv.2.length)).prod)
    ∧ product_dict [("x", [1, 2]), ("y", [3])]
      = [[("x", 1), ("y", 3)], [("x", 2), ("y", 3)]] := by
  refine ⟨fun {α} kwargs => ⟨product_dict_eq_cartesian kwargs, ?_⟩, by decide⟩
  rw [product_dict_eq_cartesian]
  exact cartesian_assignments_length kwargs

/-- Claim C6: filtering any record sequence with the empty constraint
mapping returns it unchanged, through the early-return branch that never
reaches the combinator. -/
theorem filter_empty_constraints_identity (output_files : List OutputRecord) :
    filter_from_params output_files [] = Except.ok output_files := rfl

theorem itertools_product_of_mem_nil {α : Type} (ls : List (List α)) (h : [] ∈ ls) :
    itertools_product ls = [] := by
  induction ls with
  | nil => cases h
  | cons l rest ih =>
      rcases List.mem_cons.mp h with h1 | h2
      · subst h1; rfl
      · simp [itertools_product, ih h2]

theorem filter_from_params_none_key (output_files : List OutputRecord)
    (pre post : List (String × ConstrVal)) (k : String) :
    filter_from_params output_files (pre ++ (k, ConstrVal.none) :: post)
      = Except.ok [] := by
  have hfill : fill_kwargs_with_lists (pre ++ (k, ConstrVal.none) :: post)
      = fill_kwargs_with_lists pre ++ (k, ([] : List PyVal)) :: fill_kwargs_with_lists post := by
    simp [fill_kwargs_with_lists, fill_value]
  have hprod : product_dict (fill_kwargs_with_lists (pre ++ (k, ConstrVal.none) :: post)) = [] := by
    rw [hfill]
    unfold product_dict
    rw [itertools_product_of_mem_nil]
    · rfl
    · refine List.mem_map.mpr ⟨(k, ([] : List PyVal)), ?_, rfl⟩
      exact List.mem_append_right _ (List.mem_cons_self _ _)
  have hne : (fill_kwargs_with_lists (pre ++ (k, ConstrVal.none) :: post)).isEmpty = false := by
    rw [hfill]; simp
  simp [filter_from_params, hne, hprod]

/-- Claim C7: normalization keeps every constraint key, turns a `None`
value into the empty candidate list, wraps a non-iterable scalar as a
one-element list and keeps list values as they are; consequently any
constraint set containing a `None`-valued key expands to no assignments
and the filter returns no records. -/
theorem fill_normalization_spec :
    (∀ kwargs : List (String × ConstrVal),
        (fill_kwargs_with_lists kwargs).map Prod.fst = kwargs.map Prod.fst)
    ∧ (∀ (k : String) (rest : List (String × ConstrVal)),
        fill_kwargs_with_lists ((k, ConstrVal.none) :: rest)
          = (k, ([] : List PyVal)) :: fill_kwargs_with_lists rest)
    ∧ (∀ (k : String) (n : Int) (rest : List (String × ConstrVal)),
        fill_kwargs_with_lists ((k, ConstrVal.int n) :: rest)
          = (k, [PyVal.int n]) :: fill_kwargs_with_lists rest)
    ∧ (∀ (k : String) (l : List PyVal) (rest : List (String × ConstrVal)),
        fill_kwargs_with_lists ((k, ConstrVal.list l) :: rest)
          = (k, l) :: fill_kwargs_with_lists rest)
    ∧ (∀ (output_files : List OutputRecord) (pre post : List (String × ConstrVal)) (k : String),
        filter_from_params output_files (pre ++ (k, ConstrVal.none) :: post)
          = Except.ok []) := by
  refine ⟨fun kwargs => ?_, fun k rest => rfl, fun k n rest => rfl, fun k l rest => rfl,
    filter_from_params_none_key⟩
  induction kwargs with
  | nil => rfl
  | cons kv rest ih => simp [fill_kwargs_with_lists] at *

/-- Claim C8 counterexample: the combinator applied to the empty mapping
yields one assignment (the empty assignment, from the nullary
`itertools.product`), not zero. -/
theorem empty_mapping_yields_one_assignment :
    product_dict ([] : List (String × List PyVal)) ≠ []
    ∧ product_dict ([] : List (String × List PyVal)) = [[]] := by decide

/-- Claim C8 (amended): the empty input mapping expands to exactly one
empty assignment; the filter engine handles "no constraints" through a
distinct early return and never consults that expansion. -/
theorem empty_mapping_amended :
    product_dict ([] : List (String × List PyVal)) = [[]]
    ∧ ∀ output_files : List OutputRecord,
        filter_from_params output_files [] = Except.ok output_files :=
  ⟨rfl, fun _ => rfl⟩

/-- Claim C10: a string-valued constraint is iterable, so normalization
leaves it unwrapped and the combinator iterates it character by character:
x mapped to the string "ab" expands to the assignments x="a" and x="b". -/
theorem string_constraint_iterated_charwise :
    fill_kwargs_with_lists [("x", ConstrVal.str "ab")]
      = [("x", [PyVal.str "a", PyVal.str "b"])]
    ∧ product_dict (fill_kwargs_with_lists [("x", ConstrVal.str "ab")])
      = [[("x", PyVal.str "a")], [("x", PyVal.str "b")]] := by decide

theorem lookup_registry_append_ne (reg : List (String × List OutputRecord))
    (k k0 : String) (r : OutputRecord) (h : k ≠ k0) :
    List.lookup k (registry_append reg k0 r) = List.lookup k reg := by
  induction reg with
  | nil => simp [registry_append, List.lookup, beq_eq_false_iff_ne.mpr h]
  | cons p rest ih =>
      obtain ⟨k1, rs⟩ := p
      by_cases hk : k1 = k0
      · subst hk
        simp [registry_append, List.lookup, beq_eq_false_iff_ne.mpr h]
      · simp only [registry_append, if_neg hk, List.lookup]
        rw [ih]

theorem lookup_none_of_no_key {β : Type} (k : String) (l : List (String × β))
    (h : ∀ p ∈ l, p.1 ≠ k) : List.lookup k l = none := by
  induction l with
  | nil => rfl
  | cons p rest ih =>
      obtain ⟨a, b⟩ := p
      have ha : a ≠ k := h (a, b) (List.mem_cons_self _ _)
      simp only [List.lookup, beq_eq_false_iff_ne.mpr (fun he => ha he.symm)]
      exact ih (fun q hq => h q (List.mem_cons_of_mem _ hq))

theorem no_key_of_lookup_none {β : Type} (k : String) (l : List (String × β))
    (h : List.lookup k l = none) : ∀ p ∈ l, p.1 ≠ k := by
  induction l with
  | nil => intro p hp; cases hp
  | cons q rest ih =>
      obtain ⟨a, b⟩ := q
      intro p hp
      by_cases hak : k = a
      · subst hak; simp [List.lookup] at h
      · rcases List.mem_cons.mp hp with h1 | h2
        · subst h1; exact fun he => hak he.symm
        · simp only [List.lookup, beq_eq_false_iff_ne.mpr hak] at h
          exact ih h p h2

theorem lookup_foldl_registry (k : String) (outs : List (String × String))
    (f : String × String → OutputRecord) (reg : List (String × List OutputRecord))
    (h : ∀ p ∈ outs, p.1 ≠ k) :
    List.lookup k (outs.foldl (fun reg kv => registry_append reg kv.1 (f kv)) reg)
      = List.lookup k reg := by
  induction outs generalizing reg with
  | nil => rfl
  | cons kv rest ih =>
      simp only [List.foldl_cons]
      rw [ih _ (fun p hp => h p (List.mem_cons_of_mem _ hp)),
        lookup_registry_append_ne _ _ _ _
          (fun he => h kv (List.mem_cons_self _ _) he.symm)]

theorem lookup_add_task_outputs (cwd : String) (k : String)
    (reg : List (String × List OutputRecord)) (task : LuigiTask)
    (h : List.lookup k (LuigiTask.output_file_names task) = none) :
    List.lookup k (add_task_outputs cwd reg task) = List.lookup k reg := by
  unfold add_task_outputs
  exact lookup_foldl_registry k _
    (fun kv => ⟨get_serialized_parameters task, os_path_abspath cwd kv.2⟩) reg
    (no_key_of_lookup_none k _ h)

theorem lookup_build_registry_none (cwd : String) (k : String) (tasks : List LuigiTask)
    (h : ∀ t ∈ tasks, List.lookup k (LuigiTask.output_file_names t) = none) :
    List.lookup k (build_registry cwd tasks) = none := by
  unfold build_registry
  suffices hs : ∀ reg, List.lookup k (tasks.foldl (add_task_outputs cwd) reg) = List.lookup k reg by
    exact hs []
  induction tasks with
  | nil => intro reg; rfl
  | cons t ts ih =>
      intro reg
      simp only [List.foldl_cons]
      rw [ih (fun u hu => h u (List.mem_cons_of_mem _ hu)),
        lookup_add_task_outputs cwd k reg t (h t (List.mem_cons_self _ _))]

def c3_task : LuigiTask :=
  LuigiTask.mk "LogTask" [⟨"run", true, "1"⟩] [("log", "log_1.txt")] []

/-- Claim C3 counterexample: requesting the never-declared key "nope" from
the registry builder returns normally with the empty sequence — the
registry is a `defaultdict(list)`, so the lookup cannot fail — refuting
the claimed distinct lookup failure. -/
theorem missing_key_returns_empty_counterexample :
    get_all_output_files_in_tree "/cwd" c3_task (some "nope")
      = TreeQuery.records [] := by decide

/-- Claim C3 (amended): requesting a (truthy) logical output key that no
task in the tree declares returns the empty record sequence, silently and
without any lookup failure, because the registry is a `defaultdict(list)`;
callers therefore cannot distinguish an unknown key from a declared key
with no records. -/
theorem undeclared_key_yields_empty (cwd : String) (root : LuigiTask) (k : String)
    (hk : k ≠ "")
    (h : ∀ t ∈ task_iterator root, List.lookup k (LuigiTask.output_file_names t) = none) :
    get_all_output_files_in_tree cwd root (some k) = TreeQuery.records [] := by
  have hred : get_all_output_files_in_tree cwd root (some k)
      = if k = "" then TreeQuery.registry (build_registry cwd (task_iterator root))
        else TreeQuery.records (defaultdict_get (build_registry cwd (task_iterator root)) k) := rfl
  rw [hred, if_neg hk]
  unfold defaultdict_get
  rw [lookup_build_registry_none cwd k _ h]

theorem undeclared_key_yields_empty_witness :
    ("histogram" : String) ≠ ""
    ∧ get_all_output_files_in_tree "/cwd" c3_task (some "histogram")
      = TreeQuery.records [] :=
  ⟨by decide, undeclared_key_yields_empty "/cwd" c3_task "histogram" (by decide) (by decide)⟩

theorem string_data_append (a b : String) : (a ++ b).data = a.data ++ b.data := by
  cases a; cases b; rfl

theorem string_append_assoc (a b c : String) : (a ++ b) ++ c = a ++ (b ++ c) := by
  cases a with | mk xs => cases b with | mk ys => cases c with | mk zs =>
  show String.mk ((xs ++ ys) ++ zs) = String.mk (xs ++ (ys ++ zs))
  rw [List.append_assoc]

theorem string_append_empty (a : String) : a ++ "" = a := by
  cases a with | mk xs =>
  show String.mk (xs ++ []) = String.mk xs
  rw [List.append_nil]

theorem string_ne_empty_iff (s : String) : s ≠ "" ↔ s.data ≠ [] := by
  cases s with | mk xs =>
  constructor
  · intro h hd
    exact h (congrArg String.mk hd)
  · intro h he
    exact h (congrArg String.data he)

/-- A path component that is non-empty and neither starts nor ends with
the separator: the well-behaved inputs under which `posixpath.join` is
plain concatenation with separators. -/
def plain_component (c : String) : Prop :=
  c ≠ "" ∧ c.data.head? ≠ some '/' ∧ c.data.getLast? ≠ some '/'

instance plain_component_decidable (c : String) : Decidable (plain_component c) :=
  inferInstanceAs (Decidable (_ ∧ _ ∧ _))

/-- The path shape the spec describes: each component appended after one
separator, in order. -/
def slash_concat : List String → String
  | [] => ""
  | c :: cs => "/" ++ c ++ slash_concat cs

theorem os_path_join_plain (a : String) (ps : List String)
    (ha1 : a ≠ "") (ha2 : a.data.getLast? ≠ some '/')
    (hps : ∀ c ∈ ps, plain_component c) :
    os_path_join a ps = a ++ slash_concat ps := by
  induction ps generalizing a with
  | nil =>
      show a = a ++ slash_concat []
      rw [slash_concat, string_append_empty]
  | cons c cs ih =>
      obtain ⟨hc1, hc2, hc3⟩ := hps c (List.mem_cons_self c cs)
      have hstep : os_path_join a (c :: cs) = os_path_join (a ++ "/" ++ c) cs := by
        unfold os_path_join
        simp only [List.foldl_cons]
        congr 1
        rw [if_neg ?hb, if_neg ?hc]
        case hb =>
          simp only [starts_with_sep]
          rw [beq_eq_false_iff_ne.mpr hc2]
          simp
        case hc =>
          simp only [ends_with_sep]
          rw [beq_eq_false_iff_ne.mpr ha1, beq_eq_false_iff_ne.mpr ha2]
          simp
      have hdata : (a ++ "/" ++ c).data = a.data ++ '/' :: c.data := by
        rw [string_data_append, string_data_append,
          show ("/" : String).data = ['/'] from rfl]
        simp
      have hne : a ++ "/" ++ c ≠ "" := by
        rw [string_ne_empty_iff, hdata]
        simp
      have hlast : (a ++ "/" ++ c).data.getLast? ≠ some '/' := by
        rw [hdata]
        have hcd : c.data ≠ [] := (string_ne_empty_iff c).mp hc1
        rw [show a.data ++ '/' :: c.data = (a.data ++ ['/']) ++ c.data by simp,
          List.getLast?_append_of_ne_nil _ hcd]
        exact hc3
      rw [hstep, ih (a ++ "/" ++ c) hne hlast (fun d hd => hps d (List.mem_cons_of_mem _ hd)),
        slash_concat, string_append_assoc, string_append_assoc, string_append_assoc]

/-- Claim C9: the derived output path is the result root followed by one
"name=value" segment per significant parameter in declaration order and
the base filename; with zero significant parameters it is exactly
root/base_filename, with no error (the function is total). -/
theorem create_output_file_name_spec (settings : List (String × String))
    (task : LuigiTask) (base_filename root : String) (create_folder : Bool)
    (hroot1 : root ≠ "") (hroot2 : root.data.getLast? ≠ some '/')
    (hcomps : ∀ c ∈ (get_serialized_parameters task).map (fun kv => kv.1 ++ "=" ++ kv.2)
        ++ [base_filename], plain_component c) :
    create_output_file_name settings task base_filename create_folder (some root)
      = root ++ slash_concat
          ((get_serialized_parameters task).map (fun kv => kv.1 ++ "=" ++ kv.2)
            ++ [base_filename])
    ∧ (get_serialized_parameters task = [] →
        create_output_file_name settings task base_filename create_folder (some root)
          = root ++ "/" ++ base_filename) := by
  have hmain : create_output_file_name settings task base_filename create_folder (some root)
      = root ++ slash_concat
          ((get_serialized_parameters task).map (fun kv => kv.1 ++ "=" ++ kv.2)
            ++ [base_filename]) := by
    have hred : create_output_file_name settings task base_filename create_folder (some root)
        = os_path_join (if root = "" then get_setting settings "result_path" "." else root)
            ((get_serialized_parameters task).map (fun kv => kv.1 ++ "=" ++ kv.2)
              ++ [base_filename]) := rfl
    rw [hred, if_neg hroot1]
    exact os_path_join_plain root _ hroot1 hroot2 hcomps
  refine ⟨hmain, fun hz => ?_⟩
  rw [hmain, hz]
  show root ++ slash_concat [base_filename] = root ++ "/" ++ base_filename
  rw [slash_concat, slash_concat, string_append_empty, ← string_append_assoc]

def c9_task : LuigiTask :=
  LuigiTask.mk "HistTask"
    [⟨"exp", true, "1003"⟩, ⟨"run", true, "5"⟩, ⟨"debug", false, "True"⟩] [] []

theorem create_output_file_name_spec_witness :
    (∀ c ∈ (get_serialized_parameters c9_task).map (fun kv => kv.1 ++ "=" ++ kv.2)
        ++ ["hist.root"], plain_component c)
    ∧ create_output_file_name [] c9_task "hist.root" false (some "/out")
      = "/out/exp=1003/run=5/hist.root" := by
  refine ⟨by decide, ?_⟩
  have h := (create_output_file_name_spec [] c9_task "hist.root" "/out" false
    (by decide) (by decide) (by decide)).1
  rw [h]
  decide
